import Mathlib

/-!
A verification development for the `postcss-modular-type` plugin
(`src/index.ts`).  The plugin computes a "fluid modular type scale": an
ordered mapping from CSS custom-property names to `clamp(...)` interpolation
expressions, and applies it to a stylesheet either by expanding a generator
directive comment or by replacing matching tokens inline.

Numbers are embedded as exact rationals (`ℚ`); the JavaScript `toFixed`
formatting is embedded as fixed-point decimal rounding (half away from zero)
on rationals.  The PostCSS document model and the value tokenizer are
external collaborators of the plugin; they are embedded as a minimal node
datatype and as an explicit tokenizer parameter, respectively.
-/

namespace ModularType

/-- Output unit of the generated CSS (`unit` configuration field). -/
inductive CSSUnit where
  | px : CSSUnit
  | rem : CSSUnit
deriving DecidableEq, Repr

/-- Identifier-naming strategy (`suffixType` configuration field). -/
inductive SuffixType where
  | numbered : SuffixType
  | values : SuffixType
deriving DecidableEq, Repr

/-- The plugin's resolved configuration (the `Config` type of `src/index.ts`).
The source field `prefix` is named `pfx` here because `prefix` is a Lean
keyword. -/
structure Config where
  minScreenWidth : ℚ
  maxScreenWidth : ℚ
  minFontSize : ℚ
  maxFontSize : ℚ
  minRatio : ℚ
  maxRatio : ℚ
  minStep : ℕ
  maxStep : ℕ
  rootFontSize : ℚ
  precision : ℕ
  pfx : String
  suffixType : SuffixType
  suffixValues : List String
  unit : CSSUnit
  replaceInline : Bool
  generatorDirective : String
deriving DecidableEq, Repr

/-- The module-level `defaultConfig` object of `src/index.ts`. -/
def defaultConfig : Config where
  minScreenWidth := 320
  maxScreenWidth := 1536
  minFontSize := 16
  maxFontSize := 20
  minRatio := 6/5
  maxRatio := 1333/1000
  minStep := 2
  maxStep := 5
  rootFontSize := 16
  precision := 2
  pfx := "font-size-"
  suffixType := SuffixType.numbered
  suffixValues := ["xs", "sm", "base", "md", "lg", "xl", "xxl", "xxxl"]
  unit := CSSUnit.rem
  replaceInline := false
  generatorDirective := "postcss-modular-type-generate"

/-- Left-pad a string with `'0'` characters to length `len`. -/
def padZeros (len : ℕ) (s : String) : String :=
  String.mk (List.replicate (len - s.length) '0') ++ s

/-- JavaScript's `Number.prototype.toFixed(p)` on an exact rational:
fixed-point decimal with `p` fractional digits, rounding the magnitude half
up (ECMA-262 picks the larger candidate on ties). -/
def ratToFixed (x : ℚ) (p : ℕ) : String :=
  let sgn : String := if x < 0 then "-" else ""
  let q : ℚ := (if x < 0 then -x else x) * 10 ^ p + 1/2
  let n : ℕ := (q.num / (q.den : ℤ)).toNat
  if p = 0 then
    sgn ++ toString n
  else
    sgn ++ toString (n / 10 ^ p) ++ "." ++ padZeros p (toString (n % 10 ^ p))

/-- The unit suffix appended to emitted numbers (`${unit}` in the source). -/
def unitStr : CSSUnit → String
  | CSSUnit.px => "px"
  | CSSUnit.rem => "rem"

/-- `minScreenWidth` after the `unit === "rem"` conversion block
(`toRem = pxValue / rootFontSize`, `src/index.ts` lines 185, 200-205). -/
def effMinScreenWidth (c : Config) : ℚ :=
  match c.unit with
  | CSSUnit.rem => c.minScreenWidth / c.rootFontSize
  | CSSUnit.px => c.minScreenWidth

/-- `maxScreenWidth` after the `unit === "rem"` conversion block. -/
def effMaxScreenWidth (c : Config) : ℚ :=
  match c.unit with
  | CSSUnit.rem => c.maxScreenWidth / c.rootFontSize
  | CSSUnit.px => c.maxScreenWidth

/-- `minFontSize` after the `unit === "rem"` conversion block. -/
def effMinFontSize (c : Config) : ℚ :=
  match c.unit with
  | CSSUnit.rem => c.minFontSize / c.rootFontSize
  | CSSUnit.px => c.minFontSize

/-- `maxFontSize` after the `unit === "rem"` conversion block. -/
def effMaxFontSize (c : Config) : ℚ :=
  match c.unit with
  | CSSUnit.rem => c.maxFontSize / c.rootFontSize
  | CSSUnit.px => c.maxFontSize

/-- `power = step - baseIndex` with `baseIndex = maxStep - minStep - 1`
(`src/index.ts` lines 184, 208), computed in ℤ as JavaScript numbers are
signed. -/
def powerOf (c : Config) (step : ℕ) : ℤ :=
  (step : ℤ) - ((c.maxStep : ℤ) - (c.minStep : ℤ) - 1)

/-- `fsMinSize = minFontSize * Math.pow(minRatio, power)` (lines 209, 212). -/
def fsMinSizeOf (c : Config) (step : ℕ) : ℚ :=
  effMinFontSize c * c.minRatio ^ powerOf c step

/-- `fsMaxSize = maxFontSize * Math.pow(maxRatio, power)` (lines 210, 213). -/
def fsMaxSizeOf (c : Config) (step : ℕ) : ℚ :=
  effMaxFontSize c * c.maxRatio ^ powerOf c step

/-- `slope = (fsMaxSize - fsMinSize) / (maxScreenWidth - minScreenWidth)`
(line 215). -/
def slopeOf (c : Config) (step : ℕ) : ℚ :=
  (fsMaxSizeOf c step - fsMinSizeOf c step) /
    (effMaxScreenWidth c - effMinScreenWidth c)

/-- `yIntersect = (fsMinSize - slope * minScreenWidth).toFixed(precision)`
(line 216). -/
def yIntersectOf (c : Config) (step : ℕ) : String :=
  ratToFixed (fsMinSizeOf c step - slopeOf c step * effMinScreenWidth c)
    c.precision

/-- `slopeVw = (slope * 100).toFixed(precision)` (line 217). -/
def slopeVwOf (c : Config) (step : ℕ) : String :=
  ratToFixed (slopeOf c step * 100) c.precision

/-- `fsMinFinal` (line 218): `fsMinSize` at fixed precision plus unit. -/
def fsMinFinalOf (c : Config) (step : ℕ) : String :=
  ratToFixed (fsMinSizeOf c step) c.precision ++ unitStr c.unit

/-- `fsMaxFinal` (line 219): `fsMaxSize` at fixed precision plus unit. -/
def fsMaxFinalOf (c : Config) (step : ℕ) : String :=
  ratToFixed (fsMaxSizeOf c step) c.precision ++ unitStr c.unit

/-- The per-step emitted expression, the template literal of line 225:
`clamp(${fsMinFinal},  ${slopeVw}vw + ${yIntersect}${unit} , ${fsMaxFinal})`
(two spaces after the first comma, a space on each side of the second). -/
def stepValue (c : Config) (step : ℕ) : String :=
  "clamp(" ++ fsMinFinalOf c step ++ ",  " ++ slopeVwOf c step ++ "vw + " ++
    yIntersectOf c step ++ unitStr c.unit ++ " , " ++ fsMaxFinalOf c step ++ ")"

/-- The per-step key (lines 221-224): `--${prefix}${suffixValues[step]}` for
`suffixType === "values"`, otherwise `--${prefix}${power}`. -/
def stepKey (c : Config) (step : ℕ) : String :=
  match c.suffixType with
  | SuffixType.values => "--" ++ c.pfx ++ c.suffixValues.getD step ""
  | SuffixType.numbered => "--" ++ c.pfx ++ toString (powerOf c step)

/-- JavaScript `Map.prototype.set` on an insertion-ordered association list:
an existing key is updated in place, a new key is appended. -/
def mapSet (m : List (String × String)) (kv : String × String) :
    List (String × String) :=
  if m.any (fun p => p.1 == kv.1) then
    m.map (fun p => if p.1 == kv.1 then kv else p)
  else
    m ++ [kv]

/-- The `stepsMap` after the generation loop of lines 207-228: one
`stepsMap.set(key, value)` per `step` from `0` to `maxStep + minStep`. -/
def stepsMapOf (c : Config) : List (String × String) :=
  (List.range (c.minStep + c.maxStep + 1)).foldl
    (fun m s => mapSet m (stepKey c s, stepValue c s)) []

/-- The per-step pairs in step order (for comparison with `stepsMapOf`). -/
def stepPairs (c : Config) : List (String × String) :=
  (List.range (c.minStep + c.maxStep + 1)).map
    (fun s => (stepKey c s, stepValue c s))

/-- The `Error` message thrown at lines 190-197 (JavaScript
`Array.prototype.toString` joins with `","`). -/
def configErrorMessage (c : Config) : String :=
  "Insufficient suffixes passed.\n" ++
  "Number of steps: " ++ toString c.minStep ++ "(minstep) + " ++
  toString c.maxStep ++ "(maxStep) + 1(baseStep) = " ++
  toString (c.minStep + c.maxStep + 1) ++ "\n" ++
  "Number of suffixes: " ++ toString c.suffixValues.length ++ "\n" ++
  "Current suffix list: " ++ String.intercalate "," c.suffixValues ++ "\n"

/-- The scale generator: the suffix-count guard of lines 189-198 followed by
the generation loop; errors become `Except.error`. -/
def generate (c : Config) : Except String (List (String × String)) :=
  if c.suffixType = SuffixType.values ∧
      c.suffixValues.length ≤ c.maxStep + c.minStep then
    Except.error (configErrorMessage c)
  else
    Except.ok (stepsMapOf c)

/-- A partial configuration (`Partial<Config>` in the source): each omitted
field is `none`. -/
structure OptConfig where
  minScreenWidth : Option ℚ := none
  maxScreenWidth : Option ℚ := none
  minFontSize : Option ℚ := none
  maxFontSize : Option ℚ := none
  minRatio : Option ℚ := none
  maxRatio : Option ℚ := none
  minStep : Option ℕ := none
  maxStep : Option ℕ := none
  rootFontSize : Option ℚ := none
  precision : Option ℕ := none
  pfx : Option String := none
  suffixType : Option SuffixType := none
  suffixValues : Option (List String) := none
  unit : Option CSSUnit := none
  replaceInline : Option Bool := none
  generatorDirective : Option String := none
deriving DecidableEq, Repr

/-- `Object.assign(base, opts)`: every field present in `opts` overwrites the
corresponding field of `base`; the result is the updated `base` object. -/
def assignConfig (base : Config) (o : OptConfig) : Config where
  minScreenWidth := o.minScreenWidth.getD base.minScreenWidth
  maxScreenWidth := o.maxScreenWidth.getD base.maxScreenWidth
  minFontSize := o.minFontSize.getD base.minFontSize
  maxFontSize := o.maxFontSize.getD base.maxFontSize
  minRatio := o.minRatio.getD base.minRatio
  maxRatio := o.maxRatio.getD base.maxRatio
  minStep := o.minStep.getD base.minStep
  maxStep := o.maxStep.getD base.maxStep
  rootFontSize := o.rootFontSize.getD base.rootFontSize
  precision := o.precision.getD base.precision
  pfx := o.pfx.getD base.pfx
  suffixType := o.suffixType.getD base.suffixType
  suffixValues := o.suffixValues.getD base.suffixValues
  unit := o.unit.getD base.unit
  replaceInline := o.replaceInline.getD base.replaceInline
  generatorDirective := o.generatorDirective.getD base.generatorDirective

/-- A sequence of plugin invocations in one process.  Line 164 of the source
is `Object.assign(defaultConfig, opts)`: it writes the overrides INTO the
module-level `defaultConfig` object and resolves the session from that
mutated object, so the mutated state threads from one invocation to the
next.  Returns the resolved configuration of each invocation in order. -/
def resolveSessions (invocations : List OptConfig) : List Config :=
  (invocations.foldl
    (fun acc o =>
      let r := assignConfig acc.1 o
      (r, acc.2 ++ [r]))
    (defaultConfig, ([] : List Config))).2

/-! ### The document model collaborator

PostCSS exposes rules whose children are declarations and comments.  The
plugin's `Rule` visitor (lines 232-244) walks the comments of each rule and
replaces a comment whose text equals the generator directive by one
declaration per `stepsMap` entry; its `Declaration` visitor (lines 245-256)
rewrites a declaration's value from tokenizer output. -/

/-- A child node of a CSS rule: a declaration or a comment. -/
inductive CNode where
  | decl (prop : String) (value : String) : CNode
  | comment (text : String) : CNode
deriving DecidableEq, Repr

/-- A CSS rule: an ordered list of child nodes. -/
structure CRule where
  nodes : List CNode
deriving DecidableEq, Repr

/-- The declaration nodes built from the mapping (lines 237-240), in mapping
order. -/
def declsOfMap (m : List (String × String)) : List CNode :=
  m.map (fun kv => CNode.decl kv.1 kv.2)

/-- The effect of `cmt.replaceWith(fontVars)` inside `walkComments` on one
node (lines 235-242): a comment whose text equals the directive becomes the
mapping's declarations; everything else is kept. -/
def expandComment (m : List (String × String)) (directive : String) :
    CNode → List CNode
  | CNode.comment t =>
      if t = directive then declsOfMap m else [CNode.comment t]
  | CNode.decl p v => [CNode.decl p v]

/-- The `Rule` visitor (lines 232-244): a no-op when `replaceInline` is set
(line 233), otherwise directive expansion over the rule's comments. -/
def ruleVisitor (replaceInline : Bool) (m : List (String × String))
    (directive : String) (r : CRule) : CRule :=
  if replaceInline then r
  else CRule.mk (r.nodes.flatMap (expandComment m directive))

/-- The `Rule` visitor applied to every rule of a document. -/
def rootVisitor (replaceInline : Bool) (m : List (String × String))
    (directive : String) (doc : List CRule) : List CRule :=
  doc.map (ruleVisitor replaceInline m directive)

/-- A `postcss-value-parser` node: a type tag (`"word"`, `"function"`,
`"space"`, ...) and the literal text. -/
structure VNode where
  typ : String
  value : String
deriving DecidableEq, Repr

/-- `stepsMap.get(k)` (line 252) on the association list. -/
def lookupMap (m : List (String × String)) (k : String) : Option String :=
  (m.find? (fun p => p.1 == k)).map Prod.snd

/-- The body of the `parsed.walk` callback (lines 249-254) folded over the
tokenizer's visit order: a `word` node whose text maps to a truthy (here:
non-empty) expression overwrites the whole current value. -/
def walkReplace (m : List (String × String)) (tokens : List VNode)
    (v0 : String) : String :=
  tokens.foldl
    (fun v t =>
      if t.typ = "word" then
        match lookupMap m t.value with
        | some e => if e = "" then v else e
        | none => v
      else v)
    v0

/-- `s.includes(pat)`: `pat` occurs in `s` as a contiguous substring. -/
def strContains (s pat : String) : Bool :=
  decide (pat.toList <:+: s.toList)

/-- The `Declaration` visitor (lines 245-256) on a `(prop, value)` pair.  The
value tokenizer `valueParser` is an external collaborator, passed here as the
function `tk` giving the walk order of the parsed nodes of a value. -/
def declVisitor (replaceInline : Bool) (pfxS : String)
    (m : List (String × String)) (tk : String → List VNode)
    (d : String × String) : String × String :=
  if replaceInline && strContains d.2 pfxS then
    (d.1, walkReplace m (tk d.2) d.2)
  else d

/-- The mapping lookup a `word` token is subjected to, per the spec: a bare
word token whose literal text is a key of the mapping yields that key's
expression. -/
def wordLookup (m : List (String × String)) (t : VNode) : Option String :=
  if t.typ = "word" then lookupMap m t.value else none

/-! ### Spec-side definitions

These are written from the specification's words, for comparison with the
translated source above. -/

/-- Modelled from the spec: §4.1's per-step computation (steps 1-3) ending in
the template of step h, but with the whitespace the emitted strings actually
carry (two spaces after the first comma, one space before the second comma;
see §8's example shape), and with the unit suffix on `yIntersect` per
step d. -/
def specStepValue (c : Config) (s : ℕ) : String :=
  let baseIndex : ℤ := (c.maxStep : ℤ) - (c.minStep : ℤ) - 1
  let minSW : ℚ :=
    if c.unit = CSSUnit.rem then c.minScreenWidth / c.rootFontSize
    else c.minScreenWidth
  let maxSW : ℚ :=
    if c.unit = CSSUnit.rem then c.maxScreenWidth / c.rootFontSize
    else c.maxScreenWidth
  let minFS : ℚ :=
    if c.unit = CSSUnit.rem then c.minFontSize / c.rootFontSize
    else c.minFontSize
  let maxFS : ℚ :=
    if c.unit = CSSUnit.rem then c.maxFontSize / c.rootFontSize
    else c.maxFontSize
  let power : ℤ := (s : ℤ) - baseIndex
  let fsMin : ℚ := minFS * c.minRatio ^ power
  let fsMax : ℚ := maxFS * c.maxRatio ^ power
  let slope : ℚ := (fsMax - fsMin) / (maxSW - minSW)
  let yIntersect : String :=
    ratToFixed (fsMin - slope * minSW) c.precision ++ unitStr c.unit
  let slopeVw : String := ratToFixed (slope * 100) c.precision
  let fsMinFinal : String := ratToFixed fsMin c.precision ++ unitStr c.unit
  let fsMaxFinal : String := ratToFixed fsMax c.precision ++ unitStr c.unit
  "clamp(" ++ fsMinFinal ++ ",  " ++ slopeVw ++ "vw + " ++ yIntersect ++
    " , " ++ fsMaxFinal ++ ")"

/-- Modelled from the spec: the claim's literal emission template
`clamp(\x7bfsMinFinal\x7d, \x7bslopeVw\x7dvw + \x7byIntersect\x7d, \x7bfsMaxFinal\x7d)`
read with its written single-space separators. -/
def claimedStepValue (c : Config) (s : ℕ) : String :=
  "clamp(" ++ fsMinFinalOf c s ++ ", " ++ slopeVwOf c s ++ "vw + " ++
    yIntersectOf c s ++ unitStr c.unit ++ ", " ++ fsMaxFinalOf c s ++ ")"

/-- Strip `pat` from the front of `l`; `none` if `l` does not start with
`pat`. -/
def dropPre : List Char → List Char → Option (List Char)
  | [], l => some l
  | _ :: _, [] => none
  | p :: ps, ch :: cs => if p = ch then dropPre ps cs else none

/-- Split `l` at the first occurrence of `pat`, returning the part before and
the part after; `none` when `pat` does not occur. -/
def splitOnceStr (pat : List Char) : List Char → Option (List Char × List Char)
  | [] =>
      match dropPre pat [] with
      | some r => some ([], r)
      | none => none
  | ch :: cs =>
      match dropPre pat (ch :: cs) with
      | some rest => some ([], rest)
      | none =>
          match splitOnceStr pat cs with
          | some (a, b) => some (ch :: a, b)
          | none => none

/-- A decimal-digit character. -/
def isDigitCh (ch : Char) : Bool :=
  48 ≤ ch.toNat && ch.toNat ≤ 57

/-- Modelled from the spec: a `<num>` placeholder — a fixed-point decimal
numeral, optionally negative, optionally with a fractional part. -/
def isNumChars (l : List Char) : Bool :=
  let l' := match l with
    | '-' :: t => t
    | _ => l
  match splitOnceStr ['.'] l' with
  | some (a, b) => !a.isEmpty && a.all isDigitCh && !b.isEmpty && b.all isDigitCh
  | none => !l'.isEmpty && l'.all isDigitCh

/-- Modelled from the spec: §8's example value shape
`clamp(<num>px,  <num>vw + <num>px , <num>px)`, whitespace exact. -/
def checkClampPx (s : String) : Bool :=
  match dropPre "clamp(".toList s.toList with
  | none => false
  | some r1 =>
    match splitOnceStr "px,  ".toList r1 with
    | none => false
    | some (a, r2) =>
      match splitOnceStr "vw + ".toList r2 with
      | none => false
      | some (b, r3) =>
        match splitOnceStr "px , ".toList r3 with
        | none => false
        | some (cc, r4) =>
          match splitOnceStr "px)".toList r4 with
          | none => false
          | some (d, r5) =>
            isNumChars a && isNumChars b && isNumChars cc && isNumChars d &&
              r5.isEmpty

/-! ### Concrete configurations used by counterexamples and witnesses -/

/-- The documented defaults with `unit = "px"` (§8's example). -/
def pxConfig : Config := { defaultConfig with unit := CSSUnit.px }

/-- A configuration with duplicated suffix values of sufficient length:
`suffixType = "values"`, two steps, three suffixes, all equal. -/
def dupSuffixConfig : Config :=
  { defaultConfig with
      suffixType := SuffixType.values
      minStep := 0
      maxStep := 1
      suffixValues := ["a", "a", "a"] }

/-- A small single-step configuration used to evaluate the emission
template literally. -/
def simpleConfig : Config :=
  { defaultConfig with
      unit := CSSUnit.px
      minRatio := 1
      maxRatio := 1
      precision := 0
      minStep := 0
      maxStep := 0 }

/-- A configuration with too few suffix values: `suffixType = "values"` and
8 suffixes for 4 + 5 + 1 = 10 steps. -/
def shortSuffixConfig : Config :=
  { defaultConfig with suffixType := SuffixType.values, minStep := 4 }

/-- A configuration whose base step (power 0) is step 0. -/
def baseStepConfig : Config :=
  { defaultConfig with minStep := 0, maxStep := 1 }

/-- A configuration with `maxStep ≤ minStep` (negative base index). -/
def invertedStepConfig : Config :=
  { defaultConfig with minStep := 5, maxStep := 2 }

/-- A first-invocation override: `{ minStep: 3 }`. -/
def optMinStep3 : OptConfig := { minStep := some 3 }

/-- The walk order `postcss-value-parser` produces for the value
`var(--font-size-0)`: the `var` function node, then its `word` argument. -/
def exampleTokenizer : String → List VNode :=
  fun s =>
    if s = "var(--font-size-0)" then
      [VNode.mk "function" "var", VNode.mk "word" "--font-size-0"]
    else []

/-- Numeric value of a decimal digit character. -/
def digitVal (ch : Char) : ℕ := ch.toNat - 48

/-- Numeric value of a big-endian decimal digit string. -/
def digitsVal (l : List Char) : ℕ :=
  l.foldl (fun a ch => 10 * a + digitVal ch) 0

/-! ### Helper lemmas: decimal rendering of numbers

`toString` on `ℤ` (the embedding of a JavaScript template literal
`${power}`) is injective; this makes the numbered keys pairwise distinct. -/

theorem digitsVal_append_singleton (l : List Char) (ch : Char) :
    digitsVal (l ++ [ch]) = 10 * digitsVal l + digitVal ch := by
  simp [digitsVal, List.foldl_append]

theorem toDigitsCore_append (fuel : ℕ) :
    ∀ (n : ℕ) (ds : List Char),
      Nat.toDigitsCore 10 fuel n ds = Nat.toDigitsCore 10 fuel n [] ++ ds := by
  induction fuel with
  | zero => intro n ds; simp [Nat.toDigitsCore]
  | succ f ih =>
      intro n ds
      simp only [Nat.toDigitsCore]
      by_cases h : n / 10 = 0
      · simp [h]
      · simp only [h, if_false]
        rw [ih (n / 10) (Nat.digitChar (n % 10) :: ds),
          ih (n / 10) [Nat.digitChar (n % 10)]]
        simp

theorem digitVal_digitChar (m : ℕ) (h : m < 10) :
    digitVal (Nat.digitChar m) = m := by
  interval_cases m <;> rfl

theorem isDigitCh_digitChar (m : ℕ) (h : m < 10) :
    isDigitCh (Nat.digitChar m) = true := by
  interval_cases m <;> rfl

theorem digitsVal_toDigitsCore (fuel : ℕ) :
    ∀ n, n < fuel → digitsVal (Nat.toDigitsCore 10 fuel n []) = n := by
  induction fuel with
  | zero => intro n h; omega
  | succ f ih =>
      intro n h
      simp only [Nat.toDigitsCore]
      by_cases h0 : n / 10 = 0
      · have hlt : n < 10 := by omega
        simp [h0, digitsVal, digitVal_digitChar (n % 10) (by omega)]
        omega
      · simp only [h0, if_false]
        rw [toDigitsCore_append, digitsVal_append_singleton,
          ih (n / 10) (by omega), digitVal_digitChar (n % 10) (by omega)]
        omega

theorem toDigitsCore_ne_nil (fuel n : ℕ) (h : 0 < fuel) :
    Nat.toDigitsCore 10 fuel n [] ≠ [] := by
  cases fuel with
  | zero => omega
  | succ f =>
      simp only [Nat.toDigitsCore]
      by_cases h0 : n / 10 = 0
      · simp [h0]
      · simp only [h0, if_false]
        rw [toDigitsCore_append]
        simp

theorem toDigitsCore_all_digits (fuel : ℕ) :
    ∀ (n : ℕ) (ds : List Char), (∀ ch ∈ ds, isDigitCh ch = true) →
      ∀ ch ∈ Nat.toDigitsCore 10 fuel n ds, isDigitCh ch = true := by
  induction fuel with
  | zero => intro n ds hds; simpa [Nat.toDigitsCore] using hds
  | succ f ih =>
      intro n ds hds
      simp only [Nat.toDigitsCore]
      by_cases h0 : n / 10 = 0
      · simp only [h0, if_true]
        intro ch hch
        rcases List.mem_cons.1 hch with he | hm
        · rw [he]; exact isDigitCh_digitChar (n % 10) (by omega)
        · exact hds ch hm
      · simp only [h0, if_false]
        refine ih (n / 10) (Nat.digitChar (n % 10) :: ds) ?_
        intro ch hch
        rcases List.mem_cons.1 hch with he | hm
        · rw [he]; exact isDigitCh_digitChar (n % 10) (by omega)
        · exact hds ch hm

theorem natRepr_inj {m k : ℕ} (h : Nat.repr m = Nat.repr k) : m = k := by
  have hd : Nat.toDigits 10 m = Nat.toDigits 10 k := congrArg String.data h
  have hm := digitsVal_toDigitsCore (m + 1) m (by omega)
  have hk := digitsVal_toDigitsCore (k + 1) k (by omega)
  rw [show Nat.toDigitsCore 10 (m + 1) m [] = Nat.toDigits 10 m from rfl,
    hd] at hm
  rw [show Nat.toDigitsCore 10 (k + 1) k [] = Nat.toDigits 10 k from rfl] at hk
  omega

theorem natRepr_data_digits (n : ℕ) :
    ∀ ch ∈ (Nat.repr n).data, isDigitCh ch = true := by
  intro ch hch
  exact toDigitsCore_all_digits (n + 1) n [] (by simp) ch hch

theorem natRepr_data_ne_nil (n : ℕ) : (Nat.repr n).data ≠ [] :=
  toDigitsCore_ne_nil (n + 1) n (by omega)

theorem intToString_ofNat (m : ℕ) : toString (Int.ofNat m) = Nat.repr m := rfl

theorem intToString_negSucc (m : ℕ) :
    toString (Int.negSucc m) = "-" ++ Nat.repr (m + 1) := rfl

theorem intToString_inj : Function.Injective (fun i : ℤ => toString i) := by
  intro i j h
  have hdata : (toString i).data = (toString j).data := congrArg String.data h
  cases i with
  | ofNat m =>
      cases j with
      | ofNat k =>
          exact congrArg Int.ofNat (natRepr_inj (String.ext hdata))
      | negSucc k =>
          exfalso
          have hne := natRepr_data_ne_nil m
          cases hm : (Nat.repr m).data with
          | nil => exact hne hm
          | cons ch cs =>
              have : ch :: cs = '-' :: (Nat.repr (k + 1)).data := by
                rw [← hm]
                simpa [String.data_append] using hdata
              have hdig := natRepr_data_digits m ch (by rw [hm]; simp)
              rw [List.cons.injEq] at this
              rw [this.1] at hdig
              exact absurd hdig (by decide)
  | negSucc m =>
      cases j with
      | ofNat k =>
          exfalso
          have hne := natRepr_data_ne_nil k
          cases hk : (Nat.repr k).data with
          | nil => exact hne hk
          | cons ch cs =>
              have : '-' :: (Nat.repr (m + 1)).data = ch :: cs := by
                rw [← hk]
                simpa [String.data_append] using hdata
              have hdig := natRepr_data_digits k ch (by rw [hk]; simp)
              rw [List.cons.injEq] at this
              rw [← this.1] at hdig
              exact absurd hdig (by decide)
      | negSucc k =>
          have h2 : ('-' :: (Nat.repr (m + 1)).data : List Char) =
              '-' :: (Nat.repr (k + 1)).data := by
            rw [intToString_negSucc m, intToString_negSucc k] at hdata
            simpa [String.data_append] using hdata
          have h3 : (Nat.repr (m + 1)).data = (Nat.repr (k + 1)).data :=
            (List.cons.injEq _ _ _ _ ▸ h2).2
          have h4 := natRepr_inj (String.ext h3)
          exact congrArg Int.negSucc (by omega)

theorem string_append_cancel_left {a x y : String} (h : a ++ x = a ++ y) :
    x = y := by
  apply String.ext
  have hd := congrArg String.data h
  simp only [String.data_append] at hd
  exact List.append_cancel_left hd

/-! ### Helper lemmas: the generated key list and the insertion-ordered map -/

theorem stepKey_numbered (c : Config) (h : c.suffixType = SuffixType.numbered)
    (s : ℕ) : stepKey c s = "--" ++ c.pfx ++ toString (powerOf c s) := by
  simp [stepKey, h]

theorem stepKey_values (c : Config) (h : c.suffixType = SuffixType.values)
    (s : ℕ) : stepKey c s = "--" ++ c.pfx ++ c.suffixValues.getD s "" := by
  simp [stepKey, h]

theorem stepKeys_nodup_numbered (c : Config)
    (h : c.suffixType = SuffixType.numbered) :
    ((List.range (c.minStep + c.maxStep + 1)).map (stepKey c)).Nodup := by
  refine List.Nodup.map ?_ (List.nodup_range _)
  intro a b hab
  rw [stepKey_numbered c h a, stepKey_numbered c h b] at hab
  have h1 : toString (powerOf c a) = toString (powerOf c b) :=
    string_append_cancel_left (a := "--" ++ c.pfx) hab
  have h2 : powerOf c a = powerOf c b := intToString_inj h1
  simp only [powerOf] at h2
  omega

theorem foldl_mapSet_append (l : List (String × String)) :
    ∀ acc : List (String × String), ((acc ++ l).map Prod.fst).Nodup →
      l.foldl mapSet acc = acc ++ l := by
  induction l with
  | nil => intro acc _; simp
  | cons kv t ih =>
      intro acc h
      have hk : kv.1 ∉ acc.map Prod.fst := by
        rw [List.map_append, List.nodup_append] at h
        intro hmem
        have := h.2.2 hmem
        simp at this
      have hstep : mapSet acc kv = acc ++ [kv] := by
        have hany : acc.any (fun p => p.1 == kv.1) = false := by
          rw [List.any_eq_false]
          intro p hp
          simp only [beq_iff_eq]
          intro he
          exact hk (List.mem_map.2 ⟨p, hp, he⟩)
        simp [mapSet, hany]
      rw [List.foldl_cons, hstep,
        ih (acc ++ [kv]) (by simpa [List.append_assoc] using h)]
      simp

theorem stepsMapOf_eq_foldl_pairs (c : Config) :
    stepsMapOf c = (stepPairs c).foldl mapSet [] := by
  simp [stepsMapOf, stepPairs, List.foldl_map]

theorem stepPairs_keys (c : Config) :
    (stepPairs c).map Prod.fst =
      (List.range (c.minStep + c.maxStep + 1)).map (stepKey c) := by
  simp [stepPairs, List.map_map, Function.comp]

theorem stepsMapOf_eq_stepPairs (c : Config)
    (h : ((List.range (c.minStep + c.maxStep + 1)).map (stepKey c)).Nodup) :
    stepsMapOf c = stepPairs c := by
  rw [stepsMapOf_eq_foldl_pairs]
  have h2 : ((([] : List (String × String)) ++ stepPairs c).map
      Prod.fst).Nodup := by
    rw [List.nil_append, stepPairs_keys]
    exact h
  simpa using foldl_mapSet_append (stepPairs c) [] h2

/-! ### Helper lemmas: the substitution engine -/

theorem flatMap_id_of_forall {α : Type} (l : List α) (f : α → List α)
    (h : ∀ a ∈ l, f a = [a]) : l.flatMap f = l := by
  induction l with
  | nil => rfl
  | cons a t ih =>
      rw [List.flatMap_cons, h a (by simp), ih (fun x hx => h x (by simp [hx]))]
      rfl

theorem lookupMap_ne_empty (m : List (String × String))
    (hm : ∀ kv ∈ m, kv.2 ≠ "") (k : String) (e : String)
    (h : lookupMap m k = some e) : e ≠ "" := by
  unfold lookupMap at h
  cases hf : List.find? (fun p => p.1 == k) m with
  | none => rw [hf] at h; simp at h
  | some p =>
      rw [hf] at h
      have hpe : p.2 = e := by
        simpa using h
      have hpm := List.mem_of_find?_eq_some hf
      exact hpe ▸ hm p hpm

theorem walkReplace_eq_getLast (m : List (String × String))
    (hm : ∀ kv ∈ m, kv.2 ≠ "") :
    ∀ (tokens : List VNode) (v0 : String),
      walkReplace m tokens v0 =
        ((tokens.filterMap (wordLookup m)).getLast?).getD v0 := by
  intro tokens
  induction tokens with
  | nil => intro v0; rfl
  | cons t ts ih =>
      intro v0
      have hstep : walkReplace m (t :: ts) v0 =
          walkReplace m ts
            (if t.typ = "word" then
              match lookupMap m t.value with
              | some e => if e = "" then v0 else e
              | none => v0
            else v0) := rfl
      rw [hstep, List.filterMap_cons]
      by_cases hw : t.typ = "word"
      · simp only [hw, if_true, wordLookup]
        cases hl : lookupMap m t.value with
        | none => simp only [hl]; exact ih v0
        | some e =>
            have hne : e ≠ "" := lookupMap_ne_empty m hm t.value e hl
            simp only [hl, if_neg hne]
            rw [ih e]
            cases hfm : ts.filterMap (wordLookup m) with
            | nil => simp
            | cons b bs =>
                rw [List.getLast?_cons_cons]
                have hsome : (b :: bs).getLast? ≠ none := by
                  simp
                cases hx : (b :: bs).getLast? with
                | none => exact absurd hx hsome
                | some x => simp
      · simp only [hw, if_false, wordLookup]
        exact ih v0

/-! ### Helper lemmas: substring facts about the error message -/

theorem strContains_append_left (x b : String) :
    strContains (x ++ b) x = true := by
  simp only [strContains, decide_eq_true_eq, String.toList, String.data_append]
  exact (List.prefix_append _ _).isInfix

theorem strContains_mono_left (p s x : String)
    (h : strContains s x = true) : strContains (p ++ s) x = true := by
  simp only [strContains, decide_eq_true_eq, String.toList,
    String.data_append] at *
  exact h.trans (List.suffix_append _ _).isInfix

theorem strContains_middle (a x b : String) :
    strContains (a ++ x ++ b) x = true := by
  simp only [strContains, decide_eq_true_eq, String.toList, String.data_append]
  exact List.infix_append _ _ _

/-! ## The claims -/

unseal Rat.mul Rat.add Rat.inv Rat.sub in
/-- C1 counterexample: on a concrete configuration the emitted string is not
the claim's literal template `clamp(\x7bfsMinFinal\x7d, \x7bslopeVw\x7dvw +
\x7byIntersect\x7d, \x7bfsMaxFinal\x7d)` read with its written single-space
separators: the code writes two spaces after the first comma and a space
before the second one. -/
theorem c1_template_counterexample :
    stepValue simpleConfig 0 ≠ claimedStepValue simpleConfig 0 := by decide

/-- C1 (amended): for every configuration and step, the generator computes
`fsMin = minFontSize * minRatio^power`, `fsMax = maxFontSize *
maxRatio^power`, `slope = (fsMax - fsMin) / (maxScreenWidth -
minScreenWidth)`, `yIntersect = fsMin - slope * minScreenWidth` rounded to
`precision` digits with unit suffix, `slopeVw = slope * 100` rounded, and
`fsMinFinal`/`fsMaxFinal` rounded with unit suffix — with the four inputs
first divided by `rootFontSize` when `unit = "rem"` — and emits exactly
`clamp(\x7bfsMinFinal\x7d,  \x7bslopeVw\x7dvw + \x7byIntersect\x7d ,
\x7bfsMaxFinal\x7d)` (two spaces after the first comma, one space around the
second). -/
theorem c1_step_computation (c : Config) (s : ℕ) :
    stepValue c s = specStepValue c s := by
  cases hu : c.unit <;>
    simp [stepValue, specStepValue, fsMinFinalOf, fsMaxFinalOf, slopeVwOf,
      yIntersectOf, fsMinSizeOf, fsMaxSizeOf, slopeOf, effMinScreenWidth,
      effMaxScreenWidth, effMinFontSize, effMaxFontSize, powerOf, hu,
      unitStr, String.append_assoc]

unseal Rat.mul Rat.add Rat.inv Rat.sub in
/-- C2 counterexample: a valid configuration (`suffixType = "values"`,
`suffixValues` longer than `minStep + maxStep`) whose duplicated suffixes
collapse map entries, so the mapping has fewer than `minStep + maxStep + 1`
entries. -/
theorem c2_counterexample :
    generate dupSuffixConfig = Except.ok (stepsMapOf dupSuffixConfig) ∧
    (stepsMapOf dupSuffixConfig).length ≠
      dupSuffixConfig.minStep + dupSuffixConfig.maxStep + 1 :=
  ⟨rfl, by decide⟩

/-- C2 (amended): the mapping returned by `generate` has exactly
`minStep + maxStep + 1` entries when `suffixType = "numbered"`, or when the
`minStep + maxStep + 1` generated keys are pairwise distinct (with
duplicated suffix values, later steps overwrite earlier entries and the
mapping is smaller). -/
theorem c2_entry_count (c : Config)
    (h : c.suffixType = SuffixType.numbered ∨
      ((List.range (c.minStep + c.maxStep + 1)).map (stepKey c)).Nodup) :
    (stepsMapOf c).length = c.minStep + c.maxStep + 1 := by
  have hnd :
      ((List.range (c.minStep + c.maxStep + 1)).map (stepKey c)).Nodup := by
    cases h with
    | inl h => exact stepKeys_nodup_numbered c h
    | inr h => exact h
  rw [stepsMapOf_eq_stepPairs c hnd]
  simp [stepPairs]

/-- C2 witness: the default configuration yields 2 + 5 + 1 = 8 entries. -/
theorem c2_entry_count_witness :
    (stepsMapOf defaultConfig).length =
      defaultConfig.minStep + defaultConfig.maxStep + 1 :=
  c2_entry_count defaultConfig (Or.inl rfl)

/-- C3: `generate` fails exactly when `suffixType = "values"` and
`suffixValues.length <= minStep + maxStep`; the failure value is the
diagnostic message, which carries the required count
`minStep + maxStep + 1`, the configured count `suffixValues.length` and the
full configured suffix list, and the failure outcome and message depend only
on `minStep`, `maxStep`, `suffixValues` and `suffixType` (no mapping entry
and no unit conversion enters into them). -/
theorem c3_configuration_error (c : Config) :
    ((generate c).isOk = false ↔
      c.suffixType = SuffixType.values ∧
        c.suffixValues.length ≤ c.minStep + c.maxStep) ∧
    (c.suffixType = SuffixType.values →
      c.suffixValues.length ≤ c.minStep + c.maxStep →
      generate c = Except.error (configErrorMessage c)) ∧
    strContains (configErrorMessage c)
      (toString (c.minStep + c.maxStep + 1)) = true ∧
    strContains (configErrorMessage c) (toString c.suffixValues.length) =
      true ∧
    strContains (configErrorMessage c)
      (String.intercalate "," c.suffixValues) = true ∧
    (∀ c' : Config, c'.minStep = c.minStep → c'.maxStep = c.maxStep →
      c'.suffixValues = c.suffixValues → c'.suffixType = c.suffixType →
      (generate c').isOk = (generate c).isOk ∧
        configErrorMessage c' = configErrorMessage c) := by
  refine ⟨?_, ?_, ?_, ?_, ?_, ?_⟩
  · constructor
    · intro h
      by_cases hcond : c.suffixType = SuffixType.values ∧
          c.suffixValues.length ≤ c.maxStep + c.minStep
      · exact ⟨hcond.1, by omega⟩
      · have hcond' : ¬ (c.suffixType = SuffixType.values ∧
            c.suffixValues.length ≤ c.maxStep + c.minStep) := by
          intro hx
          exact hcond ⟨hx.1, by omega⟩
        unfold generate at h
        rw [if_neg hcond'] at h
        simp [Except.isOk, Except.toBool] at h
    · intro h
      have hcond : c.suffixType = SuffixType.values ∧
          c.suffixValues.length ≤ c.maxStep + c.minStep := ⟨h.1, by omega⟩
      unfold generate
      rw [if_pos hcond]
      rfl
  · intro h1 h2
    have hcond : c.suffixType = SuffixType.values ∧
        c.suffixValues.length ≤ c.maxStep + c.minStep := ⟨h1, by omega⟩
    unfold generate
    rw [if_pos hcond]
  · have h1 : configErrorMessage c =
        ("Insufficient suffixes passed.\n" ++ "Number of steps: " ++
          toString c.minStep ++ "(minstep) + " ++ toString c.maxStep ++
          "(maxStep) + 1(baseStep) = ") ++
        toString (c.minStep + c.maxStep + 1) ++
        ("\n" ++ "Number of suffixes: " ++ toString c.suffixValues.length ++
          "\n" ++ "Current suffix list: " ++
          String.intercalate "," c.suffixValues ++ "\n") := by
      simp [configErrorMessage, String.append_assoc]
    rw [h1]
    exact strContains_middle _ _ _
  · have h1 : configErrorMessage c =
        ("Insufficient suffixes passed.\n" ++ "Number of steps: " ++
          toString c.minStep ++ "(minstep) + " ++ toString c.maxStep ++
          "(maxStep) + 1(baseStep) = " ++
          toString (c.minStep + c.maxStep + 1) ++ "\n" ++
          "Number of suffixes: ") ++
        toString c.suffixValues.length ++
        ("\n" ++ "Current suffix list: " ++
          String.intercalate "," c.suffixValues ++ "\n") := by
      simp [configErrorMessage, String.append_assoc]
    rw [h1]
    exact strContains_middle _ _ _
  · have h1 : configErrorMessage c =
        ("Insufficient suffixes passed.\n" ++ "Number of steps: " ++
          toString c.minStep ++ "(minstep) + " ++ toString c.maxStep ++
          "(maxStep) + 1(baseStep) = " ++
          toString (c.minStep + c.maxStep + 1) ++ "\n" ++
          "Number of suffixes: " ++ toString c.suffixValues.length ++ "\n" ++
          "Current suffix list: ") ++
        String.intercalate "," c.suffixValues ++ "\n" := by
      simp [configErrorMessage, String.append_assoc]
    rw [h1]
    exact strContains_middle _ _ _
  · intro c' h1 h2 h3 h4
    constructor
    · simp only [generate]
      rw [h4, h3, h2, h1]
      by_cases hcond : c.suffixType = SuffixType.values ∧
          c.suffixValues.length ≤ c.maxStep + c.minStep
      · rw [if_pos hcond, if_pos hcond]
        exact (rfl : (false : Bool) = false)
      · rw [if_neg hcond, if_neg hcond]
        exact (rfl : (true : Bool) = true)
    · simp [configErrorMessage, h1, h2, h3]

/-- C3 witness: 8 suffixes for 4 + 5 + 1 steps raise the error. -/
theorem c3_configuration_error_witness :
    generate shortSuffixConfig =
      Except.error (configErrorMessage shortSuffixConfig) ∧
    (generate shortSuffixConfig).isOk = false :=
  ⟨(c3_configuration_error shortSuffixConfig).2.1 (by decide) (by decide),
    (c3_configuration_error shortSuffixConfig).1.mpr ⟨by decide, by decide⟩⟩

unseal Rat.mul Rat.add Rat.inv Rat.sub in
/-- C4 counterexample: with duplicated suffix values the mapping does not
hold one entry per step with key `--\x7bprefix\x7d\x7bsuffixValues[s]\x7d` —
the duplicates collapse, so the claimed per-step key/entry layout fails. -/
theorem c4_counterexample :
    stepsMapOf dupSuffixConfig ≠
      (List.range
          (dupSuffixConfig.minStep + dupSuffixConfig.maxStep + 1)).map
        (fun s => ("--" ++ dupSuffixConfig.pfx ++
          dupSuffixConfig.suffixValues.getD s "",
          stepValue dupSuffixConfig s)) := by decide

/-- C4 (amended): the mapping is ordered by step over
`0..minStep+maxStep`; for `suffixType = "numbered"` the entry of step `s`
has key `--\x7bprefix\x7d\x7bpower\x7d` and the keys are pairwise distinct;
for `suffixType = "values"` the same per-step layout holds provided the
first `minStep+maxStep+1` generated keys are pairwise distinct (duplicated
suffix values collapse entries instead). -/
theorem c4_key_order (c : Config) :
    (c.suffixType = SuffixType.numbered →
      stepsMapOf c =
        (List.range (c.minStep + c.maxStep + 1)).map
          (fun s =>
            ("--" ++ c.pfx ++ toString (powerOf c s), stepValue c s)) ∧
      ((stepsMapOf c).map Prod.fst).Nodup) ∧
    (c.suffixType = SuffixType.values →
      ((List.range (c.minStep + c.maxStep + 1)).map (stepKey c)).Nodup →
      stepsMapOf c =
        (List.range (c.minStep + c.maxStep + 1)).map
          (fun s =>
            ("--" ++ c.pfx ++ c.suffixValues.getD s "", stepValue c s))) := by
  constructor
  · intro h
    have hnd := stepKeys_nodup_numbered c h
    have heq := stepsMapOf_eq_stepPairs c hnd
    constructor
    · rw [heq]
      simp only [stepPairs]
      exact List.map_congr_left (fun s _ => by rw [stepKey_numbered c h s])
    · rw [heq, stepPairs_keys]
      exact hnd
  · intro h hnd
    rw [stepsMapOf_eq_stepPairs c hnd]
    simp only [stepPairs]
    exact List.map_congr_left (fun s _ => by rw [stepKey_values c h s])

unseal Rat.mul Rat.add Rat.inv Rat.sub in
/-- C4 witness: the default (numbered) configuration's mapping laid out per
step. -/
theorem c4_key_order_witness :
    stepsMapOf defaultConfig =
      (List.range (defaultConfig.minStep + defaultConfig.maxStep + 1)).map
        (fun s => ("--" ++ defaultConfig.pfx ++
          toString (powerOf defaultConfig s), stepValue defaultConfig s)) :=
  ((c4_key_order defaultConfig).1 (by decide)).1

/-- C5: with `replaceInline = false`, a comment node whose text equals the
generator directive is replaced by one declaration per mapping entry in
mapping order, all other nodes are kept; a rule (or document) without a
matching comment is unchanged; with `replaceInline = true` the `Rule`
visitor does nothing. -/
theorem c5_directive_expansion (m : List (String × String)) (d : String) :
    (∀ r : CRule, ruleVisitor true m d r = r) ∧
    (∀ r : CRule, (ruleVisitor false m d r).nodes =
      r.nodes.flatMap (fun n =>
        match n with
        | CNode.comment t => if t = d then declsOfMap m else [n]
        | CNode.decl p v => [CNode.decl p v])) ∧
    (∀ r : CRule, (∀ t, CNode.comment t ∈ r.nodes → t ≠ d) →
      ruleVisitor false m d r = r) ∧
    (∀ doc : List CRule,
      (∀ r ∈ doc, ∀ t, CNode.comment t ∈ r.nodes → t ≠ d) →
      rootVisitor false m d doc = doc) := by
  have hid : ∀ r : CRule, (∀ t, CNode.comment t ∈ r.nodes → t ≠ d) →
      ruleVisitor false m d r = r := by
    intro r hr
    have : r.nodes.flatMap (expandComment m d) = r.nodes := by
      apply flatMap_id_of_forall
      intro n hn
      cases n with
      | decl p v => rfl
      | comment t =>
          have := hr t hn
          simp [expandComment, this]
    cases r with
    | mk nodes =>
        simp only [ruleVisitor, if_neg (Bool.false_ne_true ∘ Eq.symm)]
        simpa using this
  refine ⟨fun r => rfl, ?_, hid, ?_⟩
  · intro r
    simp only [ruleVisitor, Bool.false_eq_true, if_false]
    congr 1
    funext n
    cases n <;> rfl
  · intro doc hdoc
    have : ∀ r ∈ doc, ruleVisitor false m d r = r :=
      fun r hr => hid r (hdoc r hr)
    rw [rootVisitor, List.map_congr_left this]
    simp

/-- C5 witness: a rule whose only comment has a different text is kept
as-is by directive expansion. -/
theorem c5_directive_expansion_witness :
    ruleVisitor false [("--font-size-0", "1rem")]
      "postcss-modular-type-generate" (CRule.mk [CNode.comment "other"]) =
      CRule.mk [CNode.comment "other"] :=
  (c5_directive_expansion [("--font-size-0", "1rem")]
      "postcss-modular-type-generate").2.2.1 _
    (fun t ht => by
      simp at ht
      rw [ht]
      decide)

/-- C6: with `replaceInline = true`, a declaration whose value contains the
prefix has its whole value overwritten by the expression of the last word
token that is a mapping key (each match overwrites the full value, so the
last match wins); a declaration with no matching token, or whose value does
not contain the prefix, is unmodified — stated for mappings whose
expressions are non-empty (JavaScript truthiness of `stepsMap.get`), which
holds for every generated mapping. -/
theorem c6_inline_replacement (pfxS : String) (m : List (String × String))
    (tk : String → List VNode) (p v : String)
    (hm : ∀ kv ∈ m, kv.2 ≠ "") :
    (strContains v pfxS = true →
      declVisitor true pfxS m tk (p, v) =
        (p, (((tk v).filterMap (wordLookup m)).getLast?).getD v)) ∧
    (strContains v pfxS = false →
      declVisitor true pfxS m tk (p, v) = (p, v)) ∧
    ((tk v).filterMap (wordLookup m) = [] →
      declVisitor true pfxS m tk (p, v) = (p, v)) ∧
    (∀ d : String × String, declVisitor false pfxS m tk d = d) := by
  refine ⟨?_, ?_, ?_, fun d => rfl⟩
  · intro h
    simp only [declVisitor, h, Bool.and_true, Bool.true_and, if_true]
    rw [walkReplace_eq_getLast m hm (tk v) v]
  · intro h
    simp [declVisitor, h]
  · intro h
    by_cases hc : strContains v pfxS = true
    · simp only [declVisitor, hc, Bool.and_true, Bool.true_and, if_true]
      rw [walkReplace_eq_getLast m hm (tk v) v, h]
      rfl
    · simp only [Bool.not_eq_true] at hc
      simp [declVisitor, hc]

/-- C6 witness: `color: var(--font-size-0)` with prefix `font-size-` has its
entire value replaced by the mapping's expression. -/
theorem c6_inline_replacement_witness :
    declVisitor true "font-size-"
      [("--font-size-0", "clamp(1.00rem,  0.33vw + 0.93rem , 1.25rem)")]
      exampleTokenizer ("color", "var(--font-size-0)") =
      ("color", "clamp(1.00rem,  0.33vw + 0.93rem , 1.25rem)") := by
  have h := (c6_inline_replacement "font-size-"
      [("--font-size-0", "clamp(1.00rem,  0.33vw + 0.93rem , 1.25rem)")]
      exampleTokenizer "color" "var(--font-size-0)"
      (by decide)).1 (by decide)
  rw [h]
  decide

unseal Rat.mul Rat.add Rat.inv Rat.sub in
/-- C7 counterexample: with the documented defaults and `unit = "px"` the
keys do not stop at `--font-size-3`: the produced key list is not
`--font-size--2 .. --font-size-3` and contains `--font-size-4`. -/
theorem c7_counterexample :
    (stepsMapOf pxConfig).map Prod.fst ≠
      ["--font-size--2", "--font-size--1", "--font-size-0", "--font-size-1",
        "--font-size-2", "--font-size-3"] ∧
    "--font-size-4" ∈ (stepsMapOf pxConfig).map Prod.fst := by decide

unseal Rat.mul Rat.add Rat.inv Rat.sub in
/-- C7 (amended): the documented defaults with `unit = "px"` produce exactly
the 8 keys `--font-size--2` through `--font-size-5` (baseIndex 2, powers
`-2..5`), and every value has the exact shape
`clamp(<num>px,  <num>vw + <num>px , <num>px)` including its whitespace. -/
theorem c7_px_defaults :
    (stepsMapOf pxConfig).map Prod.fst =
      ["--font-size--2", "--font-size--1", "--font-size-0", "--font-size-1",
        "--font-size-2", "--font-size-3", "--font-size-4",
        "--font-size-5"] ∧
    ((stepsMapOf pxConfig).map Prod.snd).all checkClampPx = true := by decide

unseal Rat.mul Rat.add Rat.inv Rat.sub in
/-- C8: the code violates session independence.  `Object.assign(defaultConfig,
opts)` (line 164) mutates the module-level defaults object, so after a first
invocation with `\x7b minStep: 3 \x7d`, a second invocation with `\x7b\x7d`
resolves `minStep = 3` instead of the documented default 2 — its resolved
configuration differs from the one of invoking with `\x7b\x7d` alone. -/
theorem c8_shared_defaults_bug :
    resolveSessions [optMinStep3, {}] =
      [{ defaultConfig with minStep := 3 },
        { defaultConfig with minStep := 3 }] ∧
    resolveSessions [{}] = [defaultConfig] ∧
    (assignConfig (assignConfig defaultConfig optMinStep3) {}).minStep = 3 ∧
    (assignConfig defaultConfig {}).minStep = 2 ∧
    assignConfig (assignConfig defaultConfig optMinStep3) {} ≠
      assignConfig defaultConfig {} := by decide

/-- C9: at the step whose power is 0 (it exists exactly when
`minStep + 1 ≤ maxStep`), `fsMinFinal` is `minFontSize` — after the rem
conversion when `unit = "rem"` — rounded to `precision` digits with the unit
suffix, and `fsMaxFinal` is `maxFontSize` treated the same way. -/
theorem c9_base_step (c : Config) (h : c.minStep + 1 ≤ c.maxStep) :
    powerOf c (c.maxStep - c.minStep - 1) = 0 ∧
    fsMinFinalOf c (c.maxStep - c.minStep - 1) =
      ratToFixed (effMinFontSize c) c.precision ++ unitStr c.unit ∧
    fsMaxFinalOf c (c.maxStep - c.minStep - 1) =
      ratToFixed (effMaxFontSize c) c.precision ++ unitStr c.unit := by
  have hp : powerOf c (c.maxStep - c.minStep - 1) = 0 := by
    simp only [powerOf]
    omega
  refine ⟨hp, ?_, ?_⟩
  · simp [fsMinFinalOf, fsMinSizeOf, hp]
  · simp [fsMaxFinalOf, fsMaxSizeOf, hp]

/-- C9 witness: `minStep = 0`, `maxStep = 1`, base step 0. -/
theorem c9_base_step_witness :
    powerOf baseStepConfig
        (baseStepConfig.maxStep - baseStepConfig.minStep - 1) = 0 ∧
    fsMinFinalOf baseStepConfig
        (baseStepConfig.maxStep - baseStepConfig.minStep - 1) =
      ratToFixed (effMinFontSize baseStepConfig) baseStepConfig.precision ++
        unitStr baseStepConfig.unit :=
  ⟨(c9_base_step baseStepConfig (by decide)).1,
    (c9_base_step baseStepConfig (by decide)).2.1⟩

/-- C10: with `maxStep ≤ minStep` the base index is negative, so every
step's power is at least `minStep - maxStep + 1 ≥ 1`: strictly positive,
never 0 (no base-step entry), and the numbered key of each step carries that
positive power as its numeric suffix. -/
theorem c10_no_base_step (c : Config) (h : c.maxStep ≤ c.minStep) (s : ℕ) :
    ((c.minStep : ℤ) - (c.maxStep : ℤ) + 1 ≤ powerOf c s ∧
      0 < powerOf c s ∧ powerOf c s ≠ 0) ∧
    (c.suffixType = SuffixType.numbered →
      stepKey c s = "--" ++ c.pfx ++ toString (powerOf c s)) := by
  constructor
  · refine ⟨?_, ?_, ?_⟩ <;> (simp only [powerOf]; omega)
  · intro hn
    exact stepKey_numbered c hn s

/-- C10 witness: `minStep = 5`, `maxStep = 2`, step 0 has power 4. -/
theorem c10_no_base_step_witness :
    ((invertedStepConfig.minStep : ℤ) - (invertedStepConfig.maxStep : ℤ) +
        1 ≤ powerOf invertedStepConfig 0 ∧
      0 < powerOf invertedStepConfig 0 ∧ powerOf invertedStepConfig 0 ≠ 0) ∧
    (invertedStepConfig.suffixType = SuffixType.numbered →
      stepKey invertedStepConfig 0 = "--" ++ invertedStepConfig.pfx ++
        toString (powerOf invertedStepConfig 0)) :=
  c10_no_base_step invertedStepConfig (by decide) 0

end ModularType
